import Mathlib

/-!
Verification development for the noise-synthesis engine of
`scripts/add_noise_to_images.py` (multiband drone-image noise generator).

Pixel values are modelled as rationals (the source works in float32; the
claims under study concern exact clipping bounds, shape bookkeeping and
counter arithmetic, none of which depend on float rounding).  Random draws
made by `np.random.*` and round trips through external libraries
(OpenCV JPEG codec, colour conversion) are modelled as explicit parameters
bundled in an `Env` structure: a theorem quantified over `Env` holds for
every possible sequence of draws and every behaviour of the external
library calls.
-/

namespace NoiseGen

/-- Translation of `np.clip(x, lo, hi)`: `min (max x lo) hi`. -/
def clip (x lo hi : ℚ) : ℚ := min (max x lo) hi

/-- Truncation toward zero, the behaviour of a C float-to-int cast
(used by `numpy.ndarray.astype` for integer targets). -/
def qtrunc (q : ℚ) : ℤ := if 0 ≤ q then ⌊q⌋ else ⌈q⌉

/-- Translation of `astype(np.uint8)` on a float value: truncate toward
zero, then wrap modulo 256 (the observable numpy behaviour on x86 for
values of moderate magnitude, e.g. `np.float32(1000).astype(np.uint8) = 232`). -/
def u8cast (q : ℚ) : ℤ := qtrunc q % 256

/-- Translation of `astype(np.uint16)` on a float value. -/
def u16cast (q : ℚ) : ℤ := qtrunc q % 65536

/-- Round to nearest, ties to even: the rounding used by OpenCV
(`cvRound`) when storing filter results into integer matrices. -/
def rndNE (q : ℚ) : ℤ :=
  let f := ⌊q⌋
  let r := q - f
  if r < 1/2 then f
  else if 1/2 < r then f + 1
  else if f % 2 = 0 then f else f + 1

/-- Canonical in-memory image: either a 2-D `(height, width)` array or a
3-D `(bands, height, width)` array, exactly the two cases the source
branches on with `len(image.shape) == 3`.  Pixels are total functions on
natural indices; only indices below the stored dimensions are meaningful. -/
inductive Img where
  | two (H W : ℕ) (pix : ℕ → ℕ → ℚ) : Img
  | three (B H W : ℕ) (pix : ℕ → ℕ → ℕ → ℚ) : Img

instance : Inhabited Img := ⟨Img.two 0 0 (fun _ _ => 0)⟩

namespace Img

/-- Translation of `image.shape`. -/
def shape : Img → List ℕ
  | two H W _ => [H, W]
  | three B H W _ => [B, H, W]

/-- Pixel accessor; for a 2-D image the band index is ignored. -/
def pixAt : Img → ℕ → ℕ → ℕ → ℚ
  | two _ _ p, _, r, c => p r c
  | three _ _ _ p, b, r, c => p b r c

/-- Valid index predicate: the coordinates actually inside the array. -/
def validIdx : Img → ℕ → ℕ → ℕ → Prop
  | two H W _, b, r, c => b = 0 ∧ r < H ∧ c < W
  | three B H W _, b, r, c => b < B ∧ r < H ∧ c < W

instance (img : Img) (b r c : ℕ) : Decidable (validIdx img b r c) := by
  cases img <;> simp only [validIdx] <;> infer_instance

/-- The list of all pixel values (row-major), used to translate
`image.min()` / `image.max()`. -/
def vals : Img → List ℚ
  | two H W p => (List.range H).flatMap (fun r => (List.range W).map (p r))
  | three B H W p =>
      (List.range B).flatMap (fun b =>
        (List.range H).flatMap (fun r => (List.range W).map (p b r)))

/-- Translation of `image.min()` (numpy raises on an empty array; we return
0 there, a case no claim touches since canonical images are non-empty). -/
def imgMin (img : Img) : ℚ :=
  match vals img with
  | [] => 0
  | v :: vs => vs.foldl min v

/-- Translation of `image.max()`. -/
def imgMax (img : Img) : ℚ :=
  match vals img with
  | [] => 0
  | v :: vs => vs.foldl max v

/-- Elementwise map with access to the (band, row, col) index; the band
argument is 0 for 2-D images.  Used to translate whole-array numpy
expressions. -/
def mapIdx : Img → (ℕ → ℕ → ℕ → ℚ → ℚ) → Img
  | two H W p, f => two H W (fun r c => f 0 r c (p r c))
  | three B H W p, f => three B H W (fun b r c => f b r c (p b r c))

end Img


end NoiseGen

namespace NoiseGen

/-- Random draws and external-library behaviours consumed by one pipeline
run.  `normal`, `lumaZ`, `chromaZ`, `isoZ` are standard-normal draws
(the models scale them by the sigma they compute, matching
`np.random.normal(0, sigma, shape) = sigma * N(0,1)`); `saltU`, `pepU` are
uniform `[0,1)` draws from `np.random.random`; `pois` are the counts
returned by `np.random.poisson`; `speckleN` are the `N(0, variance**0.5)`
draws of the speckle model (drawn at final scale because the standard
deviation is irrational); `hazeN` are the `N(0.8, 0.1)` draws of the
atmospheric model.  `jpegColor`/`jpegGray` are the OpenCV JPEG
encode-decode round trips (shape-preserving, uint8-valued) and
`bgr2yuv`/`yuv2bgr` the OpenCV colour conversions, all kept abstract:
theorems quantified over `Env` hold for every behaviour of these calls. -/
structure Env where
  normal : ℕ → ℕ → ℕ → ℚ
  saltU : ℕ → ℕ → ℚ
  pepU : ℕ → ℕ → ℚ
  pois : ℕ → ℕ → ℕ → ℕ
  speckleN : ℕ → ℕ → ℕ → ℚ
  hazeN : ℕ → ℕ → ℚ
  lumaZ : ℕ → ℕ → ℚ
  chromaZ : ℕ → ℕ → ℕ → ℚ
  isoZ : ℕ → ℕ → ℕ → ℚ
  jpegColor : ℤ → ℕ → ℕ → (ℕ → ℕ → ℕ → ℤ) → (ℕ → ℕ → ℕ → ℤ)
  jpegGray : ℤ → ℕ → ℕ → (ℕ → ℕ → ℤ) → (ℕ → ℕ → ℤ)
  bgr2yuv : ℕ → ℕ → (ℕ → ℕ → ℕ → ℤ) → (ℕ → ℕ → ℕ → ℤ)
  yuv2bgr : ℕ → ℕ → (ℕ → ℕ → ℕ → ℤ) → (ℕ → ℕ → ℕ → ℤ)

/-- Translation of `NoiseGenerator.add_gaussian_noise`: additive noise
`np.random.normal(0, sigma, shape)` with
`sigma = (5 + (intensity-1)*5) * ((img_max - img_min)/255)`, followed by
`np.clip(noisy, img_min, img_max)`. -/
def add_gaussian_noise (env : Env) (img : Img) (intensity : ℕ) : Img :=
  let m := img.imgMin
  let M := img.imgMax
  let img_range := M - m
  let base_sigma : ℚ := 5 + ((intensity : ℚ) - 1) * 5
  let sigma := base_sigma * (img_range / 255)
  Img.mapIdx img (fun b r c p => clip (p + sigma * env.normal b r c) m M)

/-- Translation of `NoiseGenerator.add_salt_pepper_noise`: with
`prob = 0.001 + (intensity-1)*0.001`, a salt mask
`np.random.random((H,W)) < prob/2` first sets pixels to `img_max` in every
band, then a pepper mask sets pixels to `img_min` in every band (both
masks depend on row and column only, shared across bands; the 2-D branch
of the source is the same computation with a single implicit band). -/
def add_salt_pepper_noise (env : Env) (img : Img) (intensity : ℕ) : Img :=
  let prob : ℚ := 1/1000 + ((intensity : ℚ) - 1) * (1/1000)
  let m := img.imgMin
  let M := img.imgMax
  Img.mapIdx img (fun _ r c p =>
    let afterSalt := if env.saltU r c < prob / 2 then M else p
    if env.pepU r c < prob / 2 then m else afterSalt)

/-- Translation of `NoiseGenerator.add_poisson_noise`.  The source computes
`normalized = (image - img_min) / (img_max - img_min)` with no guard; when
`img_max == img_min` this is a float 0/0 producing NaN, and
`np.random.poisson(normalized / scale)` then raises `ValueError` (lam must
be non-negative), so the degenerate case is modelled as `none`.  Otherwise
the per-pixel Poisson counts `env.pois` (drawn at rate `normalized/scale`)
are rescaled: `clip(pois * scale * (img_max - img_min) + img_min, ...)`. -/
def add_poisson_noise (env : Env) (img : Img) (intensity : ℕ) : Option Img :=
  let scale : ℚ := 1/10 + ((intensity : ℚ) - 1) * (1/10)
  let m := img.imgMin
  let M := img.imgMax
  if M - m = 0 then none
  else
    some (Img.mapIdx img (fun b r c _ =>
      clip ((env.pois b r c : ℚ) * scale * (M - m) + m) m M))

/-- Translation of `NoiseGenerator.add_speckle_noise`: multiplicative noise
`image * (1 + noise)` with `noise = np.random.normal(0, variance**0.5, shape)`
for `variance = 0.05 + (intensity-1)*0.05` (the draws are the `speckleN`
field of the environment), clipped to `[img_min, img_max]`. -/
def add_speckle_noise (env : Env) (img : Img) (intensity : ℕ) : Img :=
  let m := img.imgMin
  let M := img.imgMax
  Img.mapIdx img (fun b r c p => clip (p * (1 + env.speckleN b r c)) m M)

/-- Translation of OpenCV `borderInterpolate(x, len, BORDER_REFLECT_101)`:
reflect without repeating the border pixel until the index is in range
(fuel-bounded version of the source library loop; the fuel chosen at the
call site is always sufficient). -/
def refl101 (len : ℕ) : ℕ → ℤ → ℤ
  | 0, x => x
  | fuel + 1, x =>
      if 0 ≤ x ∧ x < (len : ℤ) then x
      else if x < 0 then refl101 len fuel (-x)
      else refl101 len fuel (2 * ((len : ℤ) - 1) - x)

def borderReflect101 (len : ℕ) (x : ℤ) : ℤ :=
  if len ≤ 1 then 0 else refl101 len (x.natAbs + 2 * len + 2) x

/-- One band of `cv2.filter2D(band_uint8, -1, kernel)` where `kernel` is the
motion-blur kernel of the source: a `k x k` matrix whose middle row is
`1/k` and all other entries are zero (so the result at `(r, c)` is the
horizontal average over the window centred at `c`, with REFLECT_101 border
handling, rounded to nearest-even and saturated to `[0, 255]` by
`saturate_cast<uchar>`). -/
def motionBlurBand (k W : ℕ) (u : ℕ → ℕ → ℤ) (r c : ℕ) : ℤ :=
  let s : ℚ := ((List.range k).map (fun j =>
    ((u r (borderReflect101 W ((c : ℤ) + (j : ℤ) - (((k - 1) / 2 : ℕ) : ℤ))).toNat : ℤ) : ℚ))).sum
  max 0 (min 255 (rndNE (s / (k : ℚ))))

/-- Translation of `NoiseGenerator.add_motion_blur_noise`:
`kernel_size = 3 + (intensity-1)*2`; each band is cast to uint8 with
`astype(np.uint8)` (wrapping values above 255), convolved with the
middle-row box kernel, and the uint8 result is stored into a float array.
No clipping to the original range is performed. -/
def add_motion_blur_noise (img : Img) (intensity : ℕ) : Img :=
  let k := 3 + (intensity - 1) * 2
  match img with
  | .two H W p =>
      .two H W (fun r c => ((motionBlurBand k W (fun r2 c2 => u8cast (p r2 c2)) r c : ℤ) : ℚ))
  | .three B H W p =>
      .three B H W (fun b r c =>
        ((motionBlurBand k W (fun r2 c2 => u8cast (p b r2 c2)) r c : ℤ) : ℚ))

/-- Translation of `NoiseGenerator.add_atmospheric_noise`:
`haze_intensity = 0.1 + (intensity-1)*0.1`; a haze mask
`np.clip(np.random.normal(0.8, 0.1, (H,W)), 0.5, 1.0)` shared across bands
is applied as `pixel*haze + (img_max*(1-haze))*haze_intensity`, and the
result is clipped to `[img_min, img_max]` (the 2-D branch is the same
computation with a single implicit band). -/
def add_atmospheric_noise (env : Env) (img : Img) (intensity : ℕ) : Img :=
  let haze_intensity : ℚ := 1/10 + ((intensity : ℚ) - 1) * (1/10)
  let m := img.imgMin
  let M := img.imgMax
  Img.mapIdx img (fun _ r c p =>
    let haze := clip (env.hazeN r c) (1/2) 1
    clip (p * haze + (M * (1 - haze)) * haze_intensity) m M)

/-- Translation of `NoiseGenerator.add_compression_artifacts`:
`quality = 95 - (intensity-1)*5`.  With at least 3 bands, the first three
bands are cast to uint8, sent through a JPEG encode/decode round trip and
written back, the remaining bands are untouched; with fewer than 3 bands
(or a 2-D image) every band is round-tripped independently as grayscale.
No clipping to the original range is performed. -/
def add_compression_artifacts (env : Env) (img : Img) (intensity : ℕ) : Img :=
  let quality : ℤ := 95 - ((intensity : ℤ) - 1) * 5
  match img with
  | .three B H W p =>
      if 3 ≤ B then
        let rgb : ℕ → ℕ → ℕ → ℤ := fun r c ch => u8cast (p ch r c)
        let dec := env.jpegColor quality H W rgb
        .three B H W (fun b r c => if b < 3 then ((dec r c b : ℤ) : ℚ) else p b r c)
      else
        .three B H W (fun b r c =>
          ((env.jpegGray quality H W (fun r2 c2 => u8cast (p b r2 c2)) r c : ℤ) : ℚ))
  | .two H W p =>
      .two H W (fun r c =>
        ((env.jpegGray quality H W (fun r2 c2 => u8cast (p r2 c2)) r c : ℤ) : ℚ))

/-- Translation of `NoiseGenerator.add_iso_noise`:
`sigma_luma = 5 + (intensity-1)*10`, `sigma_chroma = 2 + (intensity-1)*3`.
With at least 3 bands the first three are cast to uint8, converted BGR to
YUV, given per-channel gaussian noise, clipped to `[0, img_max]`, cast back
to uint8, converted YUV to BGR and written back; remaining bands receive
`sigma_luma`-scale gaussian noise directly; finally everything is clipped
to `[img_min, img_max]`.  With fewer than 3 bands (or 2-D) every band
receives `sigma_luma`-scale gaussian noise and the same final clip. -/
def add_iso_noise (env : Env) (img : Img) (intensity : ℕ) : Img :=
  let sigma_luma : ℚ := 5 + ((intensity : ℚ) - 1) * 10
  let sigma_chroma : ℚ := 2 + ((intensity : ℚ) - 1) * 3
  let m := img.imgMin
  let M := img.imgMax
  match img with
  | .three B H W p =>
      if 3 ≤ B then
        let rgb : ℕ → ℕ → ℕ → ℤ := fun r c ch => u8cast (p ch r c)
        let yuv := env.bgr2yuv H W rgb
        let yuvNoisy : ℕ → ℕ → ℕ → ℚ := fun r c ch =>
          ((yuv r c ch : ℤ) : ℚ) +
            (if ch = 0 then sigma_luma * env.lumaZ r c
             else sigma_chroma * env.chromaZ ch r c)
        let yuvU8 : ℕ → ℕ → ℕ → ℤ := fun r c ch => u8cast (clip (yuvNoisy r c ch) 0 M)
        let bgr := env.yuv2bgr H W yuvU8
        .three B H W (fun b r c =>
          clip (if b < 3 then ((bgr r c b : ℤ) : ℚ)
                else p b r c + sigma_luma * env.isoZ b r c) m M)
      else
        .three B H W (fun b r c => clip (p b r c + sigma_luma * env.isoZ b r c) m M)
  | .two H W p =>
      .two H W (fun r c => clip (p r c + sigma_luma * env.isoZ 0 r c) m M)

/-- The `noise_types` list of `NoiseGenerator.__init__`, in source order. -/
def noise_types : List String :=
  ["gaussian", "salt_pepper", "poisson", "speckle",
   "motion_blur", "atmospheric", "compression", "iso_noise"]

/-- Translation of `NoiseGenerator.apply_noise`: dispatch on the noise-type
string; an unsupported string raises `ValueError` (`none`); the poisson
model can itself raise on a degenerate image (see `add_poisson_noise`). -/
def apply_noise (env : Env) (img : Img) (noise_type : String) (intensity : ℕ) :
    Option Img :=
  if noise_type = "gaussian" then some (add_gaussian_noise env img intensity)
  else if noise_type = "salt_pepper" then some (add_salt_pepper_noise env img intensity)
  else if noise_type = "poisson" then add_poisson_noise env img intensity
  else if noise_type = "speckle" then some (add_speckle_noise env img intensity)
  else if noise_type = "motion_blur" then some (add_motion_blur_noise img intensity)
  else if noise_type = "atmospheric" then some (add_atmospheric_noise env img intensity)
  else if noise_type = "compression" then some (add_compression_artifacts env img intensity)
  else if noise_type = "iso_noise" then some (add_iso_noise env img intensity)
  else none

end NoiseGen

namespace NoiseGen

/-- Output bit depth chosen by `save_multiband_image` for float32 input. -/
inductive BitDepth where
  | u8 : BitDepth
  | u16 : BitDepth
deriving DecidableEq

/-- Translation of the dtype-conversion block at the top of
`save_multiband_image` for a float32 tensor: if `image.max() <= 255` the
pixels are `np.clip(image, 0, 255).astype(np.uint8)`, otherwise
`np.clip(image, 0, 65535).astype(np.uint16)` (the `astype` truncates the
fractional part; `image.min()` is computed by the source but unused). -/
def save_multiband_image_convert (img : Img) : BitDepth × Img :=
  if img.imgMax ≤ 255 then
    (BitDepth.u8, Img.mapIdx img (fun _ _ _ p => ((u8cast (clip p 0 255) : ℤ) : ℚ)))
  else
    (BitDepth.u16, Img.mapIdx img (fun _ _ _ p => ((u16cast (clip p 0 65535) : ℤ) : ℚ)))

/-- Per-noise-type counters of the `stats['noise_types']` dict entries. -/
structure TypeStats where
  processed : ℕ
  failed : ℕ
deriving DecidableEq

/-- The `stats` dict of `process_images_with_noise`; `noise_types` is an
insertion-ordered association list mirroring the Python dict. -/
structure Stats where
  total_processed : ℕ
  total_failed : ℕ
  noise_types : List (String × TypeStats)
  original_images : ℕ

/-- Translation of `if noise_type not in stats['noise_types']:` followed by
creation of a fresh `{'processed': 0, 'failed': 0}` entry. -/
def ensureType (l : List (String × TypeStats)) (k : String) :
    List (String × TypeStats) :=
  if l.any (fun e => e.1 == k) then l else l ++ [(k, ⟨0, 0⟩)]

/-- Translation of `stats['noise_types'][noise_type]['processed'] += 1`. -/
def bumpProcessed : List (String × TypeStats) → String → List (String × TypeStats)
  | [], _ => []
  | (k, t) :: rest, key =>
      if k = key then (k, ⟨t.processed + 1, t.failed⟩) :: rest
      else (k, t) :: bumpProcessed rest key

/-- Translation of `stats['noise_types'][noise_type]['failed'] += 1`. -/
def bumpFailed : List (String × TypeStats) → String → List (String × TypeStats)
  | [], _ => []
  | (k, t) :: rest, key =>
      if k = key then (k, ⟨t.processed, t.failed + 1⟩) :: rest
      else (k, t) :: bumpFailed rest key

/-- One input file of a batch run: its name, the result of
`load_multiband_image` (`none` models the load raising), and the success
of `save_multiband_image` for each (noise type, level) output. -/
structure FileJob where
  name : String
  load : Option Img
  saveOk : String → ℕ → Bool

def initStats (n : ℕ) : Stats := ⟨0, 0, [], n⟩

/-- Translation of the body of the `for level in range(1, noise_levels+1)`
try-block: apply the noise (an exception, modelled by `none`, is caught and
counted), save, and update the counters exactly as the source does. -/
def processUnit (env : Env) (img : Img) (job : FileJob) (nt : String)
    (level : ℕ) (st : Stats) : Stats :=
  match apply_noise env img nt level with
  | some _ =>
      if job.saveOk nt level then
        { st with total_processed := st.total_processed + 1,
                  noise_types := bumpProcessed st.noise_types nt }
      else
        { st with total_failed := st.total_failed + 1,
                  noise_types := bumpFailed st.noise_types nt }
  | none =>
      { st with total_failed := st.total_failed + 1,
                noise_types := bumpFailed st.noise_types nt }

/-- Translation of the per-noise-type loop body: ensure the dict entry
exists, then run every level from 1 to `noise_levels`. -/
def processType (env : Env) (img : Img) (job : FileJob) (levels : ℕ)
    (st : Stats) (nt : String) : Stats :=
  let st1 := { st with noise_types := ensureType st.noise_types nt }
  (List.range levels).foldl (fun s i => processUnit env img job nt (i + 1) s) st1

/-- Translation of the per-file loop body of `process_images_with_noise`:
a load failure is counted once and the file is skipped (`continue`);
otherwise every noise type is processed. -/
def processFile (env : Env) (levels : ℕ) (st : Stats) (job : FileJob) : Stats :=
  match job.load with
  | none => { st with total_failed := st.total_failed + 1 }
  | some img => noise_types.foldl (processType env img job levels) st

/-- Translation of `process_images_with_noise`: with no input images the
function prints a warning and returns `None`; otherwise it folds the
per-file processing over all files and returns the stats dict. -/
def process_images_with_noise (env : Env) (levels : ℕ) (jobs : List FileJob) :
    Option Stats :=
  if jobs.isEmpty then none
  else some (jobs.foldl (processFile env levels) (initStats jobs.length))

/-- The `image_extensions` list of the source (same list in
`process_images_with_noise` and `main`). -/
def image_extensions : List String :=
  [".jpg", ".jpeg", ".JPG", ".JPEG", ".png", ".PNG",
   ".tif", ".tiff", ".TIF", ".TIFF"]

/-- A file name matches the glob `*{ext}` for some recognized extension. -/
def isRecognized (name : String) : Bool :=
  image_extensions.any (fun e => name.endsWith e)

/-- The part of the outside world `main` observes: whether the input
directory exists, the files it contains, and the run environment. -/
structure MainEnv where
  inputDirExists : Bool
  files : List FileJob
  env : Env

/-- Observable outcome of one `main` invocation.  `exitCode` is the process
exit status (the source never calls `sys.exit`, so a plain `return` exits
with status 0); `diagnostic` records that a warning was printed;
`reportWritten` that `save_processing_report` ran; `processingStarted`
that `process_images_with_noise` was entered. -/
structure MainResult where
  exitCode : ℕ
  diagnostic : Bool
  reportWritten : Bool
  processingStarted : Bool
deriving DecidableEq

/-- Translation of `main` (traditional-folder mode, which shares the
checks of project mode): missing input directory → print warning, plain
`return`; no recognized images → print warning, plain `return`; otherwise
process all images and, since the returned stats dict is non-empty and
hence truthy, save the report. -/
def main_run (menv : MainEnv) (levels : ℕ) : MainResult :=
  if ¬ menv.inputDirExists then ⟨0, true, false, false⟩
  else
    let imgs := menv.files.filter (fun j => isRecognized j.name)
    if imgs.isEmpty then ⟨0, true, false, false⟩
    else
      match process_images_with_noise menv.env levels imgs with
      | some _ => ⟨0, false, true, true⟩
      | none => ⟨0, false, false, true⟩

/-- Whether one (noise type, level) unit of work fails: the model raises
(`none` from `apply_noise`) or the save reports failure. -/
def unitFailed (env : Env) (img : Img) (job : FileJob) (nt : String)
    (level : ℕ) : Bool :=
  match apply_noise env img nt level with
  | none => true
  | some _ => ! job.saveOk nt level

/-- The number of failures one file contributes to `total_failed`: one for
a load failure, otherwise one per failed (type, level) unit. -/
def fileFailCount (env : Env) (levels : ℕ) (job : FileJob) : ℕ :=
  match job.load with
  | none => 1
  | some img =>
      (noise_types.map (fun nt =>
        ((List.range levels).map (fun i =>
          if unitFailed env img job nt (i + 1) then 1 else 0)).sum)).sum

/-- The number of successes one file contributes to `total_processed`. -/
def fileSuccCount (env : Env) (levels : ℕ) (job : FileJob) : ℕ :=
  match job.load with
  | none => 0
  | some img =>
      (noise_types.map (fun nt =>
        ((List.range levels).map (fun i =>
          if unitFailed env img job nt (i + 1) then 0 else 1)).sum)).sum

end NoiseGen

namespace NoiseGen

/-- The gaussian parameter law exactly as the specification words it:
`sigma = (5 + 5*(level-1)) * ((value_max - value_min)/255)`.  Stated
separately from the code translation so the two can be compared. -/
def gaussian_sigma_spec (level : ℕ) (vmin vmax : ℚ) : ℚ :=
  (5 + 5 * ((level : ℚ) - 1)) * ((vmax - vmin) / 255)

/-- Sum of the per-type `processed` counters over the stats dict. -/
def procSum (l : List (String × TypeStats)) : ℕ :=
  (l.map (fun e => e.2.processed)).sum

/-- The dict `l` has an entry for key `k`. -/
def hasKey (l : List (String × TypeStats)) (k : String) : Prop :=
  l.any (fun e => e.1 == k) = true

/-- The invariant of claim C10: the global processed counter equals the sum
of the per-type processed counters. -/
def statsInv (st : Stats) : Prop :=
  st.total_processed = procSum st.noise_types

/-- A concrete environment for witnesses: all normal draws 0, all uniform
draws 0 (so both salt and pepper masks fire everywhere), Poisson counts 0,
haze draws 1, and identity library round trips. -/
def env0 : Env where
  normal := fun _ _ _ => 0
  saltU := fun _ _ => 0
  pepU := fun _ _ => 0
  pois := fun _ _ _ => 0
  speckleN := fun _ _ _ => 0
  hazeN := fun _ _ => 1
  lumaZ := fun _ _ => 0
  chromaZ := fun _ _ _ => 0
  isoZ := fun _ _ _ => 0
  jpegColor := fun _ _ _ u => u
  jpegGray := fun _ _ _ u => u
  bgr2yuv := fun _ _ u => u
  yuv2bgr := fun _ _ u => u

/-- A 3x3 2-D image of constant value 1000 (16-bit range), the concrete
input on which motion blur leaves the dynamic range. -/
def cexImg : Img := Img.two 3 3 (fun _ _ => 1000)

/-- A 2-band 2x2 image of constant value 7: `value_max == value_min`. -/
def constImg7 : Img := Img.three 2 2 2 (fun _ _ _ => 7)

/-- A 2-band 1x1 image of constant value 5, for the salt-pepper witnesses. -/
def spImg : Img := Img.three 2 1 1 (fun _ _ _ => 5)

/-- A 1x1 2-D image of constant value 3. -/
def tiny2 : Img := Img.two 1 1 (fun _ _ => 3)

/-- The gaussian output on `tiny2` under `env0` (named so the shape witness
can apply the claim theorem to it). -/
def c3out : Img := (apply_noise env0 tiny2 "gaussian" 1).getD default

/-- A file whose load fails. -/
def jobBad : FileJob := ⟨"bad.tif", none, fun _ _ => true⟩

/-- A file that loads and always saves successfully. -/
def jobGood : FileJob := ⟨"ok.tif", some tiny2, fun _ _ => true⟩

/-- A main environment whose input directory is missing. -/
def menvMissing : MainEnv := ⟨false, [], env0⟩

/-- The gaussian output on `tiny2` under `env0` (named so the range witness
can apply the claim theorem to it). -/
def c2out : Img := (apply_noise env0 tiny2 "gaussian" 1).getD default

/-- The stats returned by a batch run over the single failing file. -/
def c10stats : Stats := (process_images_with_noise env0 1 [jobBad]).getD (initStats 0)

end NoiseGen

namespace NoiseGen

namespace Img

theorem shape_mapIdx (img : Img) (f : ℕ → ℕ → ℕ → ℚ → ℚ) :
    (mapIdx img f).shape = img.shape := by
  cases img <;> rfl

theorem pixAt_mapIdx_two (H W : ℕ) (p : ℕ → ℕ → ℚ) (f : ℕ → ℕ → ℕ → ℚ → ℚ)
    (b r c : ℕ) :
    (mapIdx (two H W p) f).pixAt b r c = f 0 r c (p r c) := rfl

theorem pixAt_mapIdx_three (B H W : ℕ) (p : ℕ → ℕ → ℕ → ℚ)
    (f : ℕ → ℕ → ℕ → ℚ → ℚ) (b r c : ℕ) :
    (mapIdx (three B H W p) f).pixAt b r c = f b r c (p b r c) := rfl

theorem pixAt_mem_vals (img : Img) (b r c : ℕ) (h : img.validIdx b r c) :
    img.pixAt b r c ∈ img.vals := by
  cases img with
  | two H W p =>
      obtain ⟨_, hr, hc⟩ := h
      simp only [vals, List.mem_flatMap, List.mem_map, List.mem_range, pixAt]
      exact ⟨r, hr, c, hc, rfl⟩
  | three B H W p =>
      obtain ⟨hb, hr, hc⟩ := h
      simp only [vals, List.mem_flatMap, List.mem_map, List.mem_range, pixAt]
      exact ⟨b, hb, r, hr, c, hc, rfl⟩

theorem foldl_min_le_init (l : List ℚ) (a : ℚ) : l.foldl min a ≤ a := by
  induction l generalizing a with
  | nil => simp
  | cons x xs ih =>
      calc (x :: xs).foldl min a = xs.foldl min (min a x) := rfl
        _ ≤ min a x := ih (min a x)
        _ ≤ a := min_le_left _ _

theorem foldl_min_le (l : List ℚ) (a x : ℚ) (hx : x ∈ l) :
    l.foldl min a ≤ x := by
  induction l generalizing a with
  | nil => cases hx
  | cons y ys ih =>
      rcases List.mem_cons.mp hx with h | h
      · subst h
        calc (x :: ys).foldl min a = ys.foldl min (min a x) := rfl
          _ ≤ min a x := foldl_min_le_init _ _
          _ ≤ x := min_le_right _ _
      · exact ih (min a y) h

theorem le_foldl_max_init (l : List ℚ) (a : ℚ) : a ≤ l.foldl max a := by
  induction l generalizing a with
  | nil => simp
  | cons x xs ih =>
      calc a ≤ max a x := le_max_left _ _
        _ ≤ xs.foldl max (max a x) := ih (max a x)
        _ = (x :: xs).foldl max a := rfl

theorem le_foldl_max (l : List ℚ) (a x : ℚ) (hx : x ∈ l) :
    x ≤ l.foldl max a := by
  induction l generalizing a with
  | nil => cases hx
  | cons y ys ih =>
      rcases List.mem_cons.mp hx with h | h
      · subst h
        calc x ≤ max a x := le_max_right _ _
          _ ≤ ys.foldl max (max a x) := le_foldl_max_init _ _
          _ = (x :: ys).foldl max a := rfl
      · exact ih (max a y) h

theorem imgMin_le_of_mem (img : Img) (x : ℚ) (hx : x ∈ img.vals) :
    img.imgMin ≤ x := by
  unfold imgMin
  revert hx
  cases hv : img.vals with
  | nil => intro hx; cases hx
  | cons v vs =>
      intro hx
      rcases List.mem_cons.mp hx with h | h
      · subst h; exact foldl_min_le_init _ _
      · exact foldl_min_le _ _ _ h

theorem le_imgMax_of_mem (img : Img) (x : ℚ) (hx : x ∈ img.vals) :
    x ≤ img.imgMax := by
  unfold imgMax
  revert hx
  cases hv : img.vals with
  | nil => intro hx; cases hx
  | cons v vs =>
      intro hx
      rcases List.mem_cons.mp hx with h | h
      · subst h; exact le_foldl_max_init _ _
      · exact le_foldl_max _ _ _ h

theorem imgMin_le_pixAt (img : Img) (b r c : ℕ) (h : img.validIdx b r c) :
    img.imgMin ≤ img.pixAt b r c :=
  imgMin_le_of_mem _ _ (pixAt_mem_vals _ _ _ _ h)

theorem pixAt_le_imgMax (img : Img) (b r c : ℕ) (h : img.validIdx b r c) :
    img.pixAt b r c ≤ img.imgMax :=
  le_imgMax_of_mem _ _ (pixAt_mem_vals _ _ _ _ h)

theorem imgMin_le_imgMax (img : Img) (b r c : ℕ) (h : img.validIdx b r c) :
    img.imgMin ≤ img.imgMax :=
  le_trans (imgMin_le_pixAt _ _ _ _ h) (pixAt_le_imgMax _ _ _ _ h)

end Img

theorem clip_le_hi (x lo hi : ℚ) : clip x lo hi ≤ hi := min_le_right _ _

theorem lo_le_clip (x lo hi : ℚ) (h : lo ≤ hi) : lo ≤ clip x lo hi :=
  le_min (le_max_right x lo) h

end NoiseGen
namespace NoiseGen

theorem apply_noise_gaussian (env : Env) (img : Img) (l : ℕ) :
    apply_noise env img "gaussian" l = some (add_gaussian_noise env img l) := rfl

theorem apply_noise_salt_pepper (env : Env) (img : Img) (l : ℕ) :
    apply_noise env img "salt_pepper" l = some (add_salt_pepper_noise env img l) := rfl

theorem apply_noise_poisson (env : Env) (img : Img) (l : ℕ) :
    apply_noise env img "poisson" l = add_poisson_noise env img l := rfl

theorem apply_noise_speckle (env : Env) (img : Img) (l : ℕ) :
    apply_noise env img "speckle" l = some (add_speckle_noise env img l) := rfl

theorem apply_noise_motion_blur (env : Env) (img : Img) (l : ℕ) :
    apply_noise env img "motion_blur" l = some (add_motion_blur_noise img l) := rfl

theorem apply_noise_atmospheric (env : Env) (img : Img) (l : ℕ) :
    apply_noise env img "atmospheric" l = some (add_atmospheric_noise env img l) := rfl

theorem apply_noise_compression (env : Env) (img : Img) (l : ℕ) :
    apply_noise env img "compression" l = some (add_compression_artifacts env img l) := rfl

theorem apply_noise_iso (env : Env) (img : Img) (l : ℕ) :
    apply_noise env img "iso_noise" l = some (add_iso_noise env img l) := rfl

theorem shape_add_gaussian_noise (env : Env) (img : Img) (l : ℕ) :
    (add_gaussian_noise env img l).shape = img.shape :=
  Img.shape_mapIdx _ _

theorem shape_add_salt_pepper_noise (env : Env) (img : Img) (l : ℕ) :
    (add_salt_pepper_noise env img l).shape = img.shape :=
  Img.shape_mapIdx _ _

theorem shape_add_poisson_noise (env : Env) (img out : Img) (l : ℕ)
    (h : add_poisson_noise env img l = some out) : out.shape = img.shape := by
  unfold add_poisson_noise at h
  by_cases hz : img.imgMax - img.imgMin = 0
  · simp [hz] at h
  · simp only [hz, if_neg, if_false] at h
    cases h
    exact Img.shape_mapIdx _ _

theorem shape_add_speckle_noise (env : Env) (img : Img) (l : ℕ) :
    (add_speckle_noise env img l).shape = img.shape :=
  Img.shape_mapIdx _ _

theorem shape_add_motion_blur_noise (img : Img) (l : ℕ) :
    (add_motion_blur_noise img l).shape = img.shape := by
  cases img <;> rfl

theorem shape_add_atmospheric_noise (env : Env) (img : Img) (l : ℕ) :
    (add_atmospheric_noise env img l).shape = img.shape :=
  Img.shape_mapIdx _ _

theorem shape_add_compression_artifacts (env : Env) (img : Img) (l : ℕ) :
    (add_compression_artifacts env img l).shape = img.shape := by
  cases img with
  | two H W p => rfl
  | three B H W p =>
      simp only [add_compression_artifacts]
      split <;> rfl

theorem shape_add_iso_noise (env : Env) (img : Img) (l : ℕ) :
    (add_iso_noise env img l).shape = img.shape := by
  cases img with
  | two H W p => rfl
  | three B H W p =>
      simp only [add_iso_noise]
      split <;> rfl

/-- C3: for every canonical image (2-D or (B,H,W) with any band count),
every one of the eight noise types and every level, whenever
`apply_noise(image, noise_type, level)` returns a tensor, its shape equals
the shape of the input. -/
theorem C3_shape_preservation (env : Env) (img : Img) (nt : String)
    (level : ℕ) (out : Img) (hnt : nt ∈ noise_types)
    (h : apply_noise env img nt level = some out) :
    out.shape = img.shape := by
  simp only [noise_types, List.mem_cons, List.mem_singleton] at hnt
  rcases hnt with rfl | rfl | rfl | rfl | rfl | rfl | rfl | rfl | hfalse
  · rw [apply_noise_gaussian] at h; cases h; exact shape_add_gaussian_noise _ _ _
  · rw [apply_noise_salt_pepper] at h; cases h; exact shape_add_salt_pepper_noise _ _ _
  · rw [apply_noise_poisson] at h; exact shape_add_poisson_noise _ _ _ _ h
  · rw [apply_noise_speckle] at h; cases h; exact shape_add_speckle_noise _ _ _
  · rw [apply_noise_motion_blur] at h; cases h; exact shape_add_motion_blur_noise _ _
  · rw [apply_noise_atmospheric] at h; cases h; exact shape_add_atmospheric_noise _ _ _
  · rw [apply_noise_compression] at h; cases h; exact shape_add_compression_artifacts _ _ _
  · rw [apply_noise_iso] at h; cases h; exact shape_add_iso_noise _ _ _
  · cases hfalse

/-- Witness for C3 at a concrete input: gaussian level 1 on a 1x1 image. -/
theorem C3_shape_preservation_witness : c3out.shape = tiny2.shape :=
  C3_shape_preservation env0 tiny2 "gaussian" 1 c3out (by decide) rfl

end NoiseGen

namespace NoiseGen

theorem pixAt_mapIdx_valid (img : Img) (f : ℕ → ℕ → ℕ → ℚ → ℚ) (b r c : ℕ)
    (hv : img.validIdx b r c) :
    (Img.mapIdx img f).pixAt b r c = f b r c (img.pixAt b r c) := by
  cases img with
  | two H W p =>
      obtain ⟨hb, _, _⟩ := hv
      subst hb
      rfl
  | three B H W p => rfl

theorem salt_pepper_pix (env : Env) (B H W : ℕ) (p : ℕ → ℕ → ℕ → ℚ)
    (level b r c : ℕ) :
    (add_salt_pepper_noise env (Img.three B H W p) level).pixAt b r c =
      (if env.pepU r c < (1/1000 + ((level : ℚ) - 1) * (1/1000)) / 2
       then (Img.three B H W p).imgMin
       else if env.saltU r c < (1/1000 + ((level : ℚ) - 1) * (1/1000)) / 2
       then (Img.three B H W p).imgMax
       else p b r c) := rfl

/-- C1: the claim says `add_poisson_noise` succeeds and returns a
zero-variance image unchanged when `value_max == value_min`.  The code in
fact computes `(image - img_min) / (img_max - img_min)` with no degenerate
guard, a float 0/0 that makes `np.random.poisson` raise, modelled as
`none`: the call fails for every constant image and every level. -/
theorem C1_poisson_degenerate_raises (env : Env) (img : Img) (level : ℕ)
    (h : img.imgMax = img.imgMin) :
    add_poisson_noise env img level = none := by
  unfold add_poisson_noise
  simp [h]

/-- Witness for C1 at a concrete input: a 2-band 2x2 constant image. -/
theorem C1_poisson_degenerate_raises_witness :
    add_poisson_noise env0 constImg7 3 = none :=
  C1_poisson_degenerate_raises env0 constImg7 3 (by decide)

/-- C6: in one salt_pepper invocation on a multiband image the flipped
coordinate set is the same in every band: the output at `(b, r, c)` is
`img_min` where the shared pepper mask fires, `img_max` where the shared
salt mask fires, and the original pixel otherwise — the masks depend on
`(r, c)` only, never on the band; consequently on any masked coordinate
all bands agree. -/
theorem C6_mask_coherence (env : Env) (B H W : ℕ) (p : ℕ → ℕ → ℕ → ℚ)
    (level b r c b2 : ℕ) (hB : 2 ≤ B)
    (hv : (Img.three B H W p).validIdx b r c)
    (hv2 : (Img.three B H W p).validIdx b2 r c) :
    ((add_salt_pepper_noise env (Img.three B H W p) level).pixAt b r c =
      (if env.pepU r c < (1/1000 + ((level : ℚ) - 1) * (1/1000)) / 2
       then (Img.three B H W p).imgMin
       else if env.saltU r c < (1/1000 + ((level : ℚ) - 1) * (1/1000)) / 2
       then (Img.three B H W p).imgMax
       else p b r c)) ∧
    ((env.saltU r c < (1/1000 + ((level : ℚ) - 1) * (1/1000)) / 2 ∨
      env.pepU r c < (1/1000 + ((level : ℚ) - 1) * (1/1000)) / 2) →
      (add_salt_pepper_noise env (Img.three B H W p) level).pixAt b r c =
        (add_salt_pepper_noise env (Img.three B H W p) level).pixAt b2 r c) := by
  refine ⟨salt_pepper_pix env B H W p level b r c, ?_⟩
  intro hmask
  rw [salt_pepper_pix env B H W p level b r c,
      salt_pepper_pix env B H W p level b2 r c]
  by_cases hpep : env.pepU r c < (1/1000 + ((level : ℚ) - 1) * (1/1000)) / 2
  · rw [if_pos hpep, if_pos hpep]
  · rcases hmask with hsalt | hpep2
    · rw [if_neg hpep, if_neg hpep, if_pos hsalt, if_pos hsalt]
    · exact absurd hpep2 hpep

/-- Witness for C6: a 2-band 1x1 constant image at level 1 under draws
that fire both masks; the two bands agree at the flipped coordinate. -/
theorem C6_mask_coherence_witness :
    (add_salt_pepper_noise env0 (Img.three 2 1 1 (fun _ _ _ => 5)) 1).pixAt 0 0 0 =
      (add_salt_pepper_noise env0 (Img.three 2 1 1 (fun _ _ _ => 5)) 1).pixAt 1 0 0 :=
  (C6_mask_coherence env0 2 1 1 (fun _ _ _ => 5) 1 0 0 0 1 (by decide)
    (by decide) (by decide)).2 (Or.inl (by norm_num [env0]))

/-- C9: when a coordinate is selected by both the salt and the pepper mask,
the output there is the image minimum in every band, because the source
assigns the pepper mask after the salt mask. -/
theorem C9_pepper_wins (env : Env) (B H W : ℕ) (p : ℕ → ℕ → ℕ → ℚ)
    (level b r c : ℕ)
    (hsalt : env.saltU r c < (1/1000 + ((level : ℚ) - 1) * (1/1000)) / 2)
    (hpep : env.pepU r c < (1/1000 + ((level : ℚ) - 1) * (1/1000)) / 2)
    (hv : (Img.three B H W p).validIdx b r c) :
    (add_salt_pepper_noise env (Img.three B H W p) level).pixAt b r c =
      (Img.three B H W p).imgMin := by
  rw [salt_pepper_pix env B H W p level b r c, if_pos hpep]

/-- Witness for C9: with both masks firing at the only pixel of a 2-band
constant-5 image, the output is the minimum, 5, also in band 1. -/
theorem C9_pepper_wins_witness :
    (add_salt_pepper_noise env0 (Img.three 2 1 1 (fun _ _ _ => 5)) 1).pixAt 1 0 0 = 5 :=
  (C9_pepper_wins env0 2 1 1 (fun _ _ _ => 5) 1 1 0 0 (by norm_num [env0])
    (by norm_num [env0]) (by decide)).trans (by decide)

/-- C7: the gaussian model adds, to each pixel, its own draw scaled by
`sigma = (5 + 5*(level-1)) * ((value_max - value_min)/255)` — the sigma law
worded by the specification — and clips the result to
`[value_min, value_max]`; the draw `env.normal b r c` is indexed by the
pixel coordinate (and band), matching per-pixel independent sampling. -/
theorem C7_gaussian_law (env : Env) (img : Img) (level b r c : ℕ)
    (h1 : 1 ≤ level) (h10 : level ≤ 10) (hv : img.validIdx b r c) :
    (add_gaussian_noise env img level).pixAt b r c =
      clip (img.pixAt b r c +
        gaussian_sigma_spec level img.imgMin img.imgMax * env.normal b r c)
        img.imgMin img.imgMax := by
  unfold add_gaussian_noise
  rw [pixAt_mapIdx_valid _ _ _ _ _ hv]
  unfold gaussian_sigma_spec
  congr 1
  ring

/-- Witness for C7: gaussian level 1 on the 1x1 constant-3 image. -/
theorem C7_gaussian_law_witness :
    (add_gaussian_noise env0 tiny2 1).pixAt 0 0 0 =
      clip (tiny2.pixAt 0 0 0 +
        gaussian_sigma_spec 1 tiny2.imgMin tiny2.imgMax * env0.normal 0 0 0)
        tiny2.imgMin tiny2.imgMax :=
  C7_gaussian_law env0 tiny2 1 0 0 0 (by decide) (by decide) (by decide)

end NoiseGen

namespace NoiseGen

theorem clip_bounds (x lo hi : ℚ) (h : lo ≤ hi) :
    lo ≤ clip x lo hi ∧ clip x lo hi ≤ hi :=
  ⟨lo_le_clip _ _ _ h, clip_le_hi _ _ _⟩

/-- C2 (amended): for every noise model except `compression` AND except
`motion_blur`, every pixel of any returned output lies inside the input
dynamic range `[value_min, value_max]` exactly (so within any tolerance).
The original claim, which includes `motion_blur`, is refuted by
`C2_range_counterexample`: `motion_blur` casts each band with
`astype(np.uint8)` and never clips, so values above 255 wrap around. -/
theorem C2_range_preservation_amended (env : Env) (img : Img) (nt : String)
    (level b r c : ℕ) (out : Img)
    (hnt : nt ∈ ["gaussian", "salt_pepper", "poisson", "speckle",
                 "atmospheric", "iso_noise"])
    (h : apply_noise env img nt level = some out)
    (hv : img.validIdx b r c) :
    img.imgMin ≤ out.pixAt b r c ∧ out.pixAt b r c ≤ img.imgMax := by
  have hmM : img.imgMin ≤ img.imgMax := Img.imgMin_le_imgMax img b r c hv
  simp only [List.mem_cons, List.mem_singleton] at hnt
  rcases hnt with rfl | rfl | rfl | rfl | rfl | rfl | hfalse
  · -- gaussian
    rw [apply_noise_gaussian] at h
    cases h
    unfold add_gaussian_noise
    rw [pixAt_mapIdx_valid _ _ _ _ _ hv]
    exact clip_bounds _ _ _ hmM
  · -- salt_pepper
    rw [apply_noise_salt_pepper] at h
    cases h
    unfold add_salt_pepper_noise
    rw [pixAt_mapIdx_valid _ _ _ _ _ hv]
    dsimp only
    split
    · exact ⟨le_refl _, hmM⟩
    · split
      · exact ⟨hmM, le_refl _⟩
      · exact ⟨Img.imgMin_le_pixAt _ _ _ _ hv, Img.pixAt_le_imgMax _ _ _ _ hv⟩
  · -- poisson
    rw [apply_noise_poisson] at h
    unfold add_poisson_noise at h
    dsimp only at h
    split at h
    · cases h
    · cases h
      rw [pixAt_mapIdx_valid _ _ _ _ _ hv]
      exact clip_bounds _ _ _ hmM
  · -- speckle
    rw [apply_noise_speckle] at h
    cases h
    unfold add_speckle_noise
    rw [pixAt_mapIdx_valid _ _ _ _ _ hv]
    exact clip_bounds _ _ _ hmM
  · -- atmospheric
    rw [apply_noise_atmospheric] at h
    cases h
    unfold add_atmospheric_noise
    rw [pixAt_mapIdx_valid _ _ _ _ _ hv]
    exact clip_bounds _ _ _ hmM
  · -- iso_noise
    rw [apply_noise_iso] at h
    cases h
    unfold add_iso_noise
    cases img with
    | two H W p =>
        exact clip_bounds _ _ _ hmM
    | three B H W p =>
        dsimp only
        split
        · exact clip_bounds _ _ _ hmM
        · exact clip_bounds _ _ _ hmM
  · cases hfalse

/-- Witness for the amended C2: gaussian level 1 on the 1x1 image. -/
theorem C2_range_preservation_amended_witness :
    tiny2.imgMin ≤ c2out.pixAt 0 0 0 ∧ c2out.pixAt 0 0 0 ≤ tiny2.imgMax :=
  C2_range_preservation_amended env0 tiny2 "gaussian" 1 0 0 0 c2out
    (by decide) rfl (by decide)

/-- Counterexample to C2 as stated: `motion_blur` is not `compression`,
yet on the 3x3 constant-1000 image (dynamic range [1000, 1000]) level 1
motion blur outputs 232 everywhere — the uint8 cast wraps 1000 to 232 —
so `min(output) ≥ value_min − ε` fails for every tolerance below 768. -/
theorem C2_range_counterexample :
    apply_noise env0 cexImg "motion_blur" 1 =
      some (add_motion_blur_noise cexImg 1) ∧
    cexImg.validIdx 0 1 1 ∧
    cexImg.imgMin = 1000 ∧
    (add_motion_blur_noise cexImg 1).pixAt 0 1 1 = 232 ∧
    (add_motion_blur_noise cexImg 1).pixAt 0 1 1 < cexImg.imgMin - 100 := by
  have hu8 : u8cast 1000 = 232 := by
    unfold u8cast qtrunc
    rw [if_pos (by norm_num)]
    norm_num
  have hmb : motionBlurBand 3 3 (fun _ _ => u8cast 1000) 1 1 = 232 := by
    unfold motionBlurBand
    simp only [hu8, List.range_succ, List.range_zero, List.map, List.sum]
    norm_num [rndNE]
  have hpix : (add_motion_blur_noise cexImg 1).pixAt 0 1 1 = 232 := by
    show ((motionBlurBand (3 + (1 - 1) * 2) 3 (fun r2 c2 => u8cast (cexImg.pixAt 0 r2 c2)) 1 1 : ℤ) : ℚ) = 232
    have h32 : (3 + (1 - 1) * 2 : ℕ) = 3 := by norm_num
    rw [h32]
    have : (fun r2 c2 : ℕ => u8cast (cexImg.pixAt 0 r2 c2)) = fun _ _ => u8cast 1000 := rfl
    rw [this, hmb]
    norm_num
  refine ⟨rfl, by decide, by decide, hpix, ?_⟩
  rw [hpix]
  have hmin : cexImg.imgMin = 1000 := by decide
  rw [hmin]
  norm_num

end NoiseGen

namespace NoiseGen

theorem u8cast_nonneg (q : ℚ) : 0 ≤ u8cast q :=
  Int.emod_nonneg _ (by norm_num)

theorem u8cast_le (q : ℚ) : u8cast q ≤ 255 := by
  have h := Int.emod_lt_of_pos (qtrunc q) (show (0:ℤ) < 256 by norm_num)
  unfold u8cast
  omega

theorem u16cast_nonneg (q : ℚ) : 0 ≤ u16cast q :=
  Int.emod_nonneg _ (by norm_num)

theorem u16cast_le (q : ℚ) : u16cast q ≤ 65535 := by
  have h := Int.emod_lt_of_pos (qtrunc q) (show (0:ℤ) < 65536 by norm_num)
  unfold u16cast
  omega

/-- C5: `save_multiband_image` infers the output bit depth of a float32
tensor from its value range: the 8-bit branch is chosen exactly when
`image.max() <= 255`, in which case every pixel is `clip` to `[0, 255]`
(then truncated to an unsigned 8-bit value); otherwise the 16-bit branch
clips to `[0, 65535]`. -/
theorem C5_save_bitdepth (img : Img) :
    ((save_multiband_image_convert img).1 = BitDepth.u8 ↔ img.imgMax ≤ 255) ∧
    (∀ b r c, img.validIdx b r c →
      (img.imgMax ≤ 255 →
        (save_multiband_image_convert img).2.pixAt b r c =
          ((u8cast (clip (img.pixAt b r c) 0 255) : ℤ) : ℚ) ∧
        0 ≤ (save_multiband_image_convert img).2.pixAt b r c ∧
        (save_multiband_image_convert img).2.pixAt b r c ≤ 255) ∧
      (255 < img.imgMax →
        (save_multiband_image_convert img).1 = BitDepth.u16 ∧
        (save_multiband_image_convert img).2.pixAt b r c =
          ((u16cast (clip (img.pixAt b r c) 0 65535) : ℤ) : ℚ) ∧
        0 ≤ (save_multiband_image_convert img).2.pixAt b r c ∧
        (save_multiband_image_convert img).2.pixAt b r c ≤ 65535)) := by
  by_cases hmax : img.imgMax ≤ 255
  · constructor
    · simp [save_multiband_image_convert, hmax]
    · intro b r c hv
      constructor
      · intro _
        unfold save_multiband_image_convert
        rw [if_pos hmax]
        rw [pixAt_mapIdx_valid _ _ _ _ _ hv]
        refine ⟨rfl, ?_, ?_⟩
        · exact_mod_cast u8cast_nonneg _
        · exact_mod_cast u8cast_le _
      · intro habs
        exact absurd hmax (not_le.mpr habs)
  · constructor
    · constructor
      · intro h8
        unfold save_multiband_image_convert at h8
        rw [if_neg hmax] at h8
        cases h8
      · intro habs
        exact absurd habs hmax
    · intro b r c hv
      constructor
      · intro habs
        exact absurd habs hmax
      · intro _
        unfold save_multiband_image_convert
        rw [if_neg hmax]
        rw [pixAt_mapIdx_valid _ _ _ _ _ hv]
        refine ⟨rfl, rfl, ?_, ?_⟩
        · exact_mod_cast u16cast_nonneg _
        · exact_mod_cast u16cast_le _

/-- Witness for C5: the 1x1 constant-3 image takes the 8-bit branch. -/
theorem C5_save_bitdepth_witness :
    (save_multiband_image_convert tiny2).1 = BitDepth.u8 ∧
    (save_multiband_image_convert tiny2).2.pixAt 0 0 0 =
      ((u8cast (clip (tiny2.pixAt 0 0 0) 0 255) : ℤ) : ℚ) :=
  ⟨(C5_save_bitdepth tiny2).1.mpr (by decide),
   (((C5_save_bitdepth tiny2).2 0 0 0 (by decide)).1 (by decide)).1⟩

end NoiseGen

namespace NoiseGen

theorem processUnit_failed_count (env : Env) (img : Img) (job : FileJob)
    (nt : String) (level : ℕ) (st : Stats) :
    (processUnit env img job nt level st).total_failed =
      st.total_failed + (if unitFailed env img job nt level then 1 else 0) := by
  unfold processUnit unitFailed
  cases h : apply_noise env img nt level with
  | none => simp
  | some x => cases hs : job.saveOk nt level <;> simp

theorem processUnit_processed_count (env : Env) (img : Img) (job : FileJob)
    (nt : String) (level : ℕ) (st : Stats) :
    (processUnit env img job nt level st).total_processed =
      st.total_processed + (if unitFailed env img job nt level then 0 else 1) := by
  unfold processUnit unitFailed
  cases h : apply_noise env img nt level with
  | none => simp
  | some x => cases hs : job.saveOk nt level <;> simp

theorem foldUnits_failed_count (env : Env) (img : Img) (job : FileJob)
    (nt : String) (L : List ℕ) (st : Stats) :
    ((L.foldl (fun s i => processUnit env img job nt (i + 1) s) st).total_failed) =
      st.total_failed +
        (L.map (fun i => if unitFailed env img job nt (i + 1) then 1 else 0)).sum := by
  induction L generalizing st with
  | nil => simp
  | cons x xs ih =>
      simp only [List.foldl_cons, List.map_cons, List.sum_cons]
      rw [ih, processUnit_failed_count]
      omega

theorem foldUnits_processed_count (env : Env) (img : Img) (job : FileJob)
    (nt : String) (L : List ℕ) (st : Stats) :
    ((L.foldl (fun s i => processUnit env img job nt (i + 1) s) st).total_processed) =
      st.total_processed +
        (L.map (fun i => if unitFailed env img job nt (i + 1) then 0 else 1)).sum := by
  induction L generalizing st with
  | nil => simp
  | cons x xs ih =>
      simp only [List.foldl_cons, List.map_cons, List.sum_cons]
      rw [ih, processUnit_processed_count]
      omega

theorem processType_failed_count (env : Env) (img : Img) (job : FileJob)
    (levels : ℕ) (st : Stats) (nt : String) :
    (processType env img job levels st nt).total_failed =
      st.total_failed +
        ((List.range levels).map
          (fun i => if unitFailed env img job nt (i + 1) then 1 else 0)).sum := by
  unfold processType
  rw [foldUnits_failed_count]

theorem processType_processed_count (env : Env) (img : Img) (job : FileJob)
    (levels : ℕ) (st : Stats) (nt : String) :
    (processType env img job levels st nt).total_processed =
      st.total_processed +
        ((List.range levels).map
          (fun i => if unitFailed env img job nt (i + 1) then 0 else 1)).sum := by
  unfold processType
  rw [foldUnits_processed_count]

theorem foldTypes_failed_count (env : Env) (img : Img) (job : FileJob)
    (levels : ℕ) (ts : List String) (st : Stats) :
    ((ts.foldl (processType env img job levels) st).total_failed) =
      st.total_failed +
        (ts.map (fun nt =>
          ((List.range levels).map
            (fun i => if unitFailed env img job nt (i + 1) then 1 else 0)).sum)).sum := by
  induction ts generalizing st with
  | nil => simp
  | cons t rest ih =>
      simp only [List.foldl_cons, List.map_cons, List.sum_cons]
      rw [ih, processType_failed_count]
      omega

theorem foldTypes_processed_count (env : Env) (img : Img) (job : FileJob)
    (levels : ℕ) (ts : List String) (st : Stats) :
    ((ts.foldl (processType env img job levels) st).total_processed) =
      st.total_processed +
        (ts.map (fun nt =>
          ((List.range levels).map
            (fun i => if unitFailed env img job nt (i + 1) then 0 else 1)).sum)).sum := by
  induction ts generalizing st with
  | nil => simp
  | cons t rest ih =>
      simp only [List.foldl_cons, List.map_cons, List.sum_cons]
      rw [ih, processType_processed_count]
      omega

theorem processFile_failed_count (env : Env) (levels : ℕ) (st : Stats)
    (job : FileJob) :
    (processFile env levels st job).total_failed =
      st.total_failed + fileFailCount env levels job := by
  unfold processFile fileFailCount
  cases job.load with
  | none => rfl
  | some img => rw [foldTypes_failed_count]

theorem processFile_processed_count (env : Env) (levels : ℕ) (st : Stats)
    (job : FileJob) :
    (processFile env levels st job).total_processed =
      st.total_processed + fileSuccCount env levels job := by
  unfold processFile fileSuccCount
  cases job.load with
  | none => simp
  | some img => rw [foldTypes_processed_count]

theorem foldFiles_failed_count (env : Env) (levels : ℕ) (jobs : List FileJob)
    (st : Stats) :
    ((jobs.foldl (processFile env levels) st).total_failed) =
      st.total_failed + (jobs.map (fileFailCount env levels)).sum := by
  induction jobs generalizing st with
  | nil => simp
  | cons j rest ih =>
      simp only [List.foldl_cons, List.map_cons, List.sum_cons]
      rw [ih, processFile_failed_count]
      omega

theorem foldFiles_processed_count (env : Env) (levels : ℕ) (jobs : List FileJob)
    (st : Stats) :
    ((jobs.foldl (processFile env levels) st).total_processed) =
      st.total_processed + (jobs.map (fileSuccCount env levels)).sum := by
  induction jobs generalizing st with
  | nil => simp
  | cons j rest ih =>
      simp only [List.foldl_cons, List.map_cons, List.sum_cons]
      rw [ih, processFile_processed_count]
      omega

/-- C8: the batch run is total — every unit-level failure (load, model
application, or save) is absorbed into the counters and the fold continues
over all remaining units, so a non-empty run always returns stats whose
`total_failed` is exactly the number of failed units (one per failed load,
one per failed (type, level) unit) and whose `total_processed` is exactly
the number of successful units; and whenever `main` reaches processing it
also writes the report afterwards, regardless of how many units failed. -/
theorem C8_failure_isolation (env : Env) (levels : ℕ) (jobs : List FileJob)
    (h : jobs ≠ []) :
    (∃ stats, process_images_with_noise env levels jobs = some stats ∧
      stats.total_failed = (jobs.map (fileFailCount env levels)).sum ∧
      stats.total_processed = (jobs.map (fileSuccCount env levels)).sum) ∧
    (∀ (menv : MainEnv) (levels2 : ℕ), menv.inputDirExists = true →
      (menv.files.filter (fun j => isRecognized j.name)).isEmpty = false →
      (main_run menv levels2).reportWritten = true) := by
  constructor
  · have hne : jobs.isEmpty = false := by
      cases jobs with
      | nil => exact absurd rfl h
      | cons a l => rfl
    refine ⟨jobs.foldl (processFile env levels) (initStats jobs.length), ?_, ?_, ?_⟩
    · unfold process_images_with_noise
      rw [hne]
      rfl
    · rw [foldFiles_failed_count]
      simp [initStats]
    · rw [foldFiles_processed_count]
      simp [initStats]
  · intro menv levels2 hdir hne
    unfold main_run
    rw [hdir]
    simp only [not_true, if_false, hne, Bool.false_eq_true]
    unfold process_images_with_noise
    rw [hne]
    rfl

/-- Witness for C8: a single file whose load fails. -/
theorem C8_failure_isolation_witness :
    (∃ stats, process_images_with_noise env0 1 [jobBad] = some stats ∧
      stats.total_failed = ([jobBad].map (fileFailCount env0 1)).sum ∧
      stats.total_processed = ([jobBad].map (fileSuccCount env0 1)).sum) ∧
    (∀ (menv : MainEnv) (levels2 : ℕ), menv.inputDirExists = true →
      (menv.files.filter (fun j => isRecognized j.name)).isEmpty = false →
      (main_run menv levels2).reportWritten = true) :=
  C8_failure_isolation env0 1 [jobBad] (List.cons_ne_nil _ _)

end NoiseGen

namespace NoiseGen

theorem procSum_ensureType (l : List (String × TypeStats)) (k : String) :
    procSum (ensureType l k) = procSum l := by
  unfold ensureType
  split
  · rfl
  · simp [procSum]

theorem hasKey_ensureType (l : List (String × TypeStats)) (k : String) :
    hasKey (ensureType l k) k := by
  unfold hasKey ensureType
  split
  · assumption
  · simp [List.any_append]

theorem any_bumpProcessed (l : List (String × TypeStats)) (key k2 : String) :
    (bumpProcessed l key).any (fun e => e.1 == k2) = l.any (fun e => e.1 == k2) := by
  induction l with
  | nil => rfl
  | cons a rest ih =>
      obtain ⟨ak, at2⟩ := a
      unfold bumpProcessed
      split
      · simp
      · simp [ih]

theorem any_bumpFailed (l : List (String × TypeStats)) (key k2 : String) :
    (bumpFailed l key).any (fun e => e.1 == k2) = l.any (fun e => e.1 == k2) := by
  induction l with
  | nil => rfl
  | cons a rest ih =>
      obtain ⟨ak, at2⟩ := a
      unfold bumpFailed
      split
      · simp
      · simp [ih]

theorem procSum_bumpProcessed (l : List (String × TypeStats)) (key : String)
    (h : hasKey l key) : procSum (bumpProcessed l key) = procSum l + 1 := by
  induction l with
  | nil => simp [hasKey] at h
  | cons a rest ih =>
      obtain ⟨ak, at2⟩ := a
      unfold bumpProcessed
      split
      · simp [procSum]
        omega
      · rename_i hne
        have hrest : hasKey rest key := by
          unfold hasKey at h ⊢
          simp only [List.any_cons] at h
          rcases Bool.or_eq_true_iff.mp h with hx | hx
          · exact absurd (by simpa using hx) hne
          · exact hx
        simp only [procSum, List.map_cons, List.sum_cons]
        have := ih hrest
        unfold procSum at this
        omega

theorem procSum_bumpFailed (l : List (String × TypeStats)) (key : String) :
    procSum (bumpFailed l key) = procSum l := by
  induction l with
  | nil => rfl
  | cons a rest ih =>
      obtain ⟨ak, at2⟩ := a
      unfold bumpFailed
      split
      · simp [procSum]
      · simp only [procSum, List.map_cons, List.sum_cons]
        unfold procSum at ih
        omega

theorem statsInv_processUnit (env : Env) (img : Img) (job : FileJob)
    (nt : String) (level : ℕ) (st : Stats) (hk : hasKey st.noise_types nt)
    (hinv : statsInv st) : statsInv (processUnit env img job nt level st) := by
  unfold statsInv at hinv ⊢
  unfold processUnit
  cases h : apply_noise env img nt level with
  | none => simpa [procSum_bumpFailed] using hinv
  | some x =>
      cases hs : job.saveOk nt level with
      | false => simpa [procSum_bumpFailed] using hinv
      | true =>
          rw [if_pos rfl]
          simp only
          rw [procSum_bumpProcessed st.noise_types nt hk]
          omega

theorem hasKey_processUnit (env : Env) (img : Img) (job : FileJob)
    (nt k2 : String) (level : ℕ) (st : Stats) (hk : hasKey st.noise_types k2) :
    hasKey (processUnit env img job nt level st).noise_types k2 := by
  unfold hasKey at hk ⊢
  unfold processUnit
  cases h : apply_noise env img nt level with
  | none => simpa [any_bumpFailed] using hk
  | some x =>
      cases hs : job.saveOk nt level with
      | false => simpa [any_bumpFailed] using hk
      | true => simpa [any_bumpProcessed] using hk

theorem statsInv_foldUnits (env : Env) (img : Img) (job : FileJob)
    (nt : String) (L : List ℕ) (st : Stats) (hk : hasKey st.noise_types nt)
    (hinv : statsInv st) :
    statsInv (L.foldl (fun s i => processUnit env img job nt (i + 1) s) st) := by
  induction L generalizing st with
  | nil => exact hinv
  | cons x xs ih =>
      simp only [List.foldl_cons]
      exact ih _ (hasKey_processUnit env img job nt nt (x + 1) st hk)
        (statsInv_processUnit env img job nt (x + 1) st hk hinv)

theorem statsInv_processType (env : Env) (img : Img) (job : FileJob)
    (levels : ℕ) (st : Stats) (nt : String) (hinv : statsInv st) :
    statsInv (processType env img job levels st nt) := by
  unfold processType
  refine statsInv_foldUnits env img job nt (List.range levels) _ ?_ ?_
  · exact hasKey_ensureType st.noise_types nt
  · unfold statsInv at hinv ⊢
    simpa [procSum_ensureType] using hinv

theorem statsInv_processFile (env : Env) (levels : ℕ) (st : Stats)
    (job : FileJob) (hinv : statsInv st) :
    statsInv (processFile env levels st job) := by
  unfold processFile
  cases job.load with
  | none => exact hinv
  | some img =>
      induction noise_types generalizing st with
      | nil => exact hinv
      | cons t rest ih =>
          simp only [List.foldl_cons]
          exact ih _ (statsInv_processType env img job levels st t hinv)

theorem statsInv_foldFiles (env : Env) (levels : ℕ) (jobs : List FileJob)
    (st : Stats) (hinv : statsInv st) :
    statsInv (jobs.foldl (processFile env levels) st) := by
  induction jobs generalizing st with
  | nil => exact hinv
  | cons j rest ih =>
      simp only [List.foldl_cons]
      exact ih _ (statsInv_processFile env levels st j hinv)

/-- C10: at every update point of the run the global `total_processed`
equals the sum over the per-type `processed` counters — each unit update
preserves the equality (a successful save increments exactly one per-type
counter together with the global one; failures touch neither), each file
step preserves it, and the stats returned by `process_images_with_noise`
satisfy it. -/
theorem C10_total_processed_invariant :
    (∀ (env : Env) (img : Img) (job : FileJob) (nt : String) (level : ℕ)
        (st : Stats), hasKey st.noise_types nt → statsInv st →
        statsInv (processUnit env img job nt level st)) ∧
    (∀ (env : Env) (levels : ℕ) (st : Stats) (job : FileJob),
        statsInv st → statsInv (processFile env levels st job)) ∧
    (∀ (env : Env) (levels : ℕ) (jobs : List FileJob) (stats : Stats),
        process_images_with_noise env levels jobs = some stats →
        statsInv stats) := by
  refine ⟨statsInv_processUnit, statsInv_processFile, ?_⟩
  intro env levels jobs stats h
  unfold process_images_with_noise at h
  split at h
  · cases h
  · cases h
    exact statsInv_foldFiles env levels jobs (initStats jobs.length) rfl

/-- Witness for C10: the stats of a concrete one-file run. -/
theorem C10_total_processed_invariant_witness : statsInv c10stats :=
  C10_total_processed_invariant.2.2 env0 1 [jobBad] c10stats rfl

end NoiseGen

namespace NoiseGen

/-- Counterexample to C4 as stated: with a missing input folder, `main`
prints its diagnostic and returns normally — the source never calls
`sys.exit`, so the process exit status is 0, not non-zero as the claim
requires (no report is written and no processing starts, as claimed). -/
theorem C4_exit_counterexample :
    main_run menvMissing 10 = ⟨0, true, false, false⟩ ∧
    menvMissing.inputDirExists = false := by
  constructor
  · rfl
  · rfl

/-- C4 (amended): if the input folder does not exist, or it exists but
contains no file with a recognized image extension, `main` prints a
diagnostic and terminates before any processing, writing no report file —
but it exits with status 0 (a plain `return`), not a non-zero status. -/
theorem C4_diagnostic_amended (menv : MainEnv) (levels : ℕ)
    (h : menv.inputDirExists = false ∨
         (menv.files.filter (fun j => isRecognized j.name)).isEmpty = true) :
    main_run menv levels = ⟨0, true, false, false⟩ := by
  unfold main_run
  cases hd : menv.inputDirExists with
  | false => simp
  | true =>
      rcases h with h | h
      · rw [hd] at h
        cases h
      · simp [h]

/-- Witness for the amended C4: the missing-directory environment. -/
theorem C4_diagnostic_amended_witness :
    main_run menvMissing 10 = ⟨0, true, false, false⟩ :=
  C4_diagnostic_amended menvMissing 10 (Or.inl rfl)

end NoiseGen
